import Mathlib

/-!
# Verification of `hexdigest/typeface` (`src/typeface.go`)

`typeface` extracts the exported method set of a named Go struct type and
emits a textual interface declaration.  This file is a shallow embedding of
the program's logic:

* `GoType`, `GoType.string` — resolved `go/types` types and their
  `types.Type.String()` rendering (at rune granularity).
* `splitOnDot`, `lastChunk` — `strings.Split(s, ".")` and taking the
  final chunk, as done in `visitor.Visit`.
* `visit` — the body of `(*visitor).Visit` (typeface.go lines 126-149).
* `extract` — the `ast.Walk` loop over all declarations of the package
  (methods are always top-level declarations in Go, so the walked
  `FuncDecl`s are exactly the file's declaration list).
* `loadPackage` — the `go/loader` behaviour under the configuration built
  in `main` (lines 55-65).
* rendering definitions — the `template` constant (lines 153-160) as
  processed by `text/template`; ranging over a map with string keys visits
  the keys in sorted order, per the documented `text/template` semantics.
* `runMain` — the `main` pipeline from line 44 onward, with the
  filesystem and loader outcomes supplied as an explicit `World`.

Machine strings are modelled as Lean `String`s; the one byte-level
operation in the source — comparing `name[0]` with
`strings.ToUpper(name)[0]` — is modelled at rune granularity
(`c.toUpper = c` on the first character), which coincides with the source
for names whose first character is ASCII.
-/

set_option linter.unusedVariables false

namespace Typeface

/-- A resolved Go type as `go/types` presents it: a named type carries the
full package path (used by `types.Type.String()`), the package identifier
(used when rendering qualified names), and its simple name.  Pointer types
wrap their element; `basic` covers predeclared types such as `int`. -/
inductive GoType where
  | named (pkgPath pkgName name : String)
  | ptr (elem : GoType)
  | basic (name : String)
  deriving DecidableEq, Repr

/-- `types.Type.String()` at rune granularity: a named type prints as
`pkgPath.Name`, a pointer prints a leading `*`. -/
def GoType.string : GoType → List Char
  | .named pkgPath _ name => pkgPath.data ++ '.' :: name.data
  | .ptr t => '*' :: t.string
  | .basic n => n.data

/-- A receiver type expression (`ast.Field.Type` of the receiver list):
an identifier or a pointer-star over an expression. -/
inductive Expr where
  | ident (name : String)
  | star (e : Expr)
  deriving DecidableEq, Repr

/-- `ast.CommentGroup`: the `Text` of each comment in the group, verbatim. -/
structure CommentGroup where
  list : List String
  deriving DecidableEq, Repr

/-- A `*types.Signature`: parameter and result types. -/
structure Signature where
  params : List GoType
  results : List GoType
  deriving DecidableEq, Repr

/-- The type of the object a declared name resolves to: either a function
signature (the type assertion `.(*types.Signature)` succeeds) or some
other type (the assertion fails). -/
inductive ObjType where
  | sig (s : Signature)
  | nonsig
  deriving DecidableEq, Repr

/-- `ast.FuncDecl`: the declaration's name, its receiver field list
(`none` for a free function, mirroring a nil `*ast.FieldList`), and its
attached doc comment group. -/
structure FuncDecl where
  name : String
  recv : Option (List Expr)
  doc : Option CommentGroup
  deriving DecidableEq, Repr

/-- A node handed to `visitor.Visit` by `ast.Walk`: a `*ast.FuncDecl` or
anything else (the type switch in `Visit` only inspects `FuncDecl`s). -/
inductive Node where
  | funcDecl (d : FuncDecl)
  | other
  deriving DecidableEq, Repr

/-- The `methodInfo` record stored per method (typeface.go lines 27-30). -/
structure MethodInfo where
  method : Signature
  doc : Option CommentGroup
  deriving DecidableEq, Repr

/-- The type universe consulted by `Visit`: `generator.ExpressionType`
resolving a receiver expression (may fail), and
`loader.PackageInfo.ObjectOf` resolving the identifier `ts.Name` to its
object (`none` models a nil object, whose `.Type()` call panics).
`ObjectOf` is keyed by the identifier *node*, not its string: two
declarations with equal name strings have distinct `*ast.Ident` nodes and
may resolve to distinct objects.  Each `FuncDecl` owns exactly its one
name identifier, so the model keys the lookup by the declaration. -/
structure TypeInfo where
  exprType : Expr → Except String GoType
  objectOf : FuncDecl → Option ObjType

/-- `strings.Split(s, ".")`: splits at every `'.'`; always returns at
least one (possibly empty) chunk. -/
def splitOnDot : List Char → List (List Char)
  | [] => [[]]
  | c :: cs =>
    if c = '.' then [] :: splitOnDot cs
    else
      match splitOnDot cs with
      | [] => [[c]]
      | r :: rs => (c :: r) :: rs

/-- `chunks[len(chunks)-1]`: the final chunk of the dot-split. -/
def lastChunk (s : List Char) : List Char :=
  (splitOnDot s).getLastD []

/-- Go map assignment `m[k] = v`: replaces the binding when the key is
present, otherwise appends it. -/
def mapInsert (k : String) (v : MethodInfo) :
    List (String × MethodInfo) → List (String × MethodInfo)
  | [] => [(k, v)]
  | (k', v') :: rest =>
    if k' = k then (k, v) :: rest else (k', v') :: mapInsert k v rest

/-- Go map read `m[k]`. -/
def lookupName (k : String) : List (String × MethodInfo) → Option MethodInfo
  | [] => none
  | (k', v) :: rest => if k' = k then some v else lookupName k rest

/-- The outcome of one `Visit` call: the updated method map together with
the returned visitor (`true` = return `v`, keep descending; `false` =
return `nil`), a call to `die` (which exits the process), or a runtime
panic from an unguarded access. -/
inductive VisitOutcome where
  | ok (methods : List (String × MethodInfo)) (descend : Bool)
  | fatal (msg : String)
  | panicked
  deriving DecidableEq, Repr

/-- `(*visitor).Visit` (typeface.go lines 126-149).

```go
if ts, ok := node.(*ast.FuncDecl); ok && ts.Recv != nil &&
    ts.Name.Name[0] == strings.ToUpper(ts.Name.Name)[0] {
  t, err := v.gen.ExpressionType(ts.Recv.List[0].Type)
  if err != nil { die(...) }
  chunks := strings.Split(t.String(), ".")
  typeName := chunks[len(chunks)-1]
  if typeName == v.sourceStruct {
    if method, ok := v.info.ObjectOf(ts.Name).Type().(*types.Signature); ok {
      v.methods[ts.Name.Name] = methodInfo{Method: method, Doc: ts.Doc}
    }
  }
  return nil
}
return v
```

`ts.Name.Name[0]` on an empty name, `ts.Recv.List[0]` on an empty
receiver list, and `.Type()` on a nil object each panic. -/
def visit (info : TypeInfo) (sourceStruct : String)
    (ms : List (String × MethodInfo)) : Node → VisitOutcome
  | .other => .ok ms true
  | .funcDecl ts =>
    match ts.recv with
    | none => .ok ms true
    | some recvFields =>
      match ts.name.data with
      | [] => .panicked
      | c :: _ =>
        if c.toUpper = c then
          match recvFields with
          | [] => .panicked
          | f :: _ =>
            match info.exprType f with
            | .error e =>
              .fatal ("failed to get expression for *ast.FuncType " ++
                ts.name ++ ": " ++ e)
            | .ok t =>
              if lastChunk t.string = sourceStruct.data then
                match info.objectOf ts with
                | none => .panicked
                | some (.sig s) =>
                  .ok (mapInsert ts.name ⟨s, ts.doc⟩ ms) false
                | some .nonsig => .ok ms false
              else .ok ms false
        else .ok ms true

/-- The result of walking every declaration: the collected map, or the
process died / panicked mid-walk. -/
inductive ExtractResult where
  | ok (methods : List (String × MethodInfo))
  | fatal (msg : String)
  | panicked
  deriving DecidableEq, Repr

/-- Folding `visit` over the walked nodes, starting from `ms`. -/
def extractFrom (info : TypeInfo) (src : String)
    (ms : List (String × MethodInfo)) : List Node → ExtractResult
  | [] => .ok ms
  | n :: rest =>
    match visit info src ms n with
    | .fatal m => .fatal m
    | .panicked => .panicked
    | .ok ms' _ => extractFrom info src ms' rest

/-- The `ast.Walk` loop of `main` (lines 108-110) over the package's
declarations, starting from the empty map built at line 100. -/
def extract (info : TypeInfo) (src : String) (nodes : List Node) : ExtractResult :=
  extractFrom info src [] nodes

/-- The exportedness notion the specification appeals to: a Go identifier
is exported when its first character is an upper-case letter. -/
def goExported (s : String) : Bool :=
  match s.data with
  | [] => false
  | c :: _ => c.isUpper

/-- The first-character test the code actually performs
(`ts.Name.Name[0] == strings.ToUpper(ts.Name.Name)[0]`): the name is
non-empty and its first character is unchanged by upper-casing.  An
upper-case letter passes, a lower-case letter fails, and any other
character — an underscore in particular — passes as well. -/
def codeExportCheck (name : String) : Bool :=
  match name.data with
  | [] => false
  | c :: _ => c.toUpper == c

/-! ## Program loading (`main`, lines 55-80 and 103-106) -/

/-- The fields of `loader.Config` / `types.Config` that `main` sets
(typeface.go lines 55-65). -/
structure LoaderConfig where
  allowErrors : Bool
  typeCheckFuncBodies : String → Bool
  swallowErrors : Bool

/-- The configuration built in `main`: `AllowErrors: true`,
`TypeCheckFuncBodies: func(string) bool { return false }`, and a
`TypeChecker.Error` handler that discards every error. -/
def typefaceConfig : LoaderConfig where
  allowErrors := true
  typeCheckFuncBodies := fun _ => false
  swallowErrors := true

/-- The state of the world a load runs against: whether the package can be
located and parsed at all, the diagnostics the type checker would report,
and the package's files and declarations. -/
structure PkgWorld where
  locatable : Bool
  typeErrors : List String
  files : List String
  decls : List Node

/-- What a successful load yields: the files whose function bodies were
type-checked, the diagnostics that were surfaced to the caller, and the
declarations of the package. -/
structure LoadedPkg where
  checkedBodies : List String
  surfacedErrors : List String
  decls : List Node
  deriving DecidableEq, Repr

/-- Modelled from the spec: the loader itself lives in
`golang.org/x/tools/go/loader`, outside this repository; §4.1 describes
its contract.  A load fails only when the package cannot be located or
parsed; with `AllowErrors` set, type-checker diagnostics do not abort it;
function bodies of a file are type-checked only where the
`TypeCheckFuncBodies` predicate allows; a no-op `Error` handler swallows
every diagnostic instead of surfacing it. -/
def loadPackage (cfg : LoaderConfig) (w : PkgWorld) : Except String LoadedPkg :=
  if !w.locatable then .error "could not locate or parse package"
  else if !cfg.allowErrors && !w.typeErrors.isEmpty then
    .error "type errors in package"
  else
    .ok { checkedBodies := w.files.filter cfg.typeCheckFuncBodies
        , surfacedErrors := if cfg.swallowErrors then [] else w.typeErrors
        , decls := w.decls }

/-! ## Rendering (`template`, lines 153-160, and the header, lines 88-94)

`gen.ProcessTemplate("", template, v.methods)` hands the method map to a
`text/template`; `{{ range $methodName, $methodInfo := . }}` over a map
with string keys visits the keys in sorted (byte-lexicographic) order —
the documented `text/template` semantics for ranging over a map.  Lean's
`String` order is rune-lexicographic, which agrees with byte order on
UTF-8 encodings.  The output is modelled at line granularity (gofmt
normalises the template's raw indentation deterministically). -/

/-- Modelled from the spec: the `signature` template helper is implemented
in `github.com/gojuno/generator`, outside this repository; §4.3 gives its
contract.  A type of the destination package renders unqualified; a type
of any other package renders as `pkgName.TypeName` using the package
identifier the type checker associates with it; a pointer renders a
leading `*`. -/
def renderType (destPkgPath : String) : GoType → String
  | .named p i n => if p = destPkgPath then n else i ++ "." ++ n
  | .ptr t => "*" ++ renderType destPkgPath t
  | .basic n => n

/-- Comma-separated list, as Go prints parameter and result lists. -/
def commaSep : List String → String
  | [] => ""
  | [s] => s
  | s :: r :: rest => s ++ ", " ++ commaSep (r :: rest)

/-- Assembling `(params) results` from already-rendered type strings. -/
def assembleSignature (params results : List String) : String :=
  "(" ++ commaSep params ++ ")" ++
    match results with
    | [] => ""
    | [r] => " " ++ r
    | _ => " (" ++ commaSep results ++ ")"

/-- Modelled from the spec: rendering a whole signature applies the
qualification rule to every parameter and result type, preserving their
order (§4.3). -/
def renderSignature (destPkgPath : String) (s : Signature) : String :=
  assembleSignature (s.params.map (renderType destPkgPath))
    (s.results.map (renderType destPkgPath))

/-- The doc lines a method record contributes: the comment group's lines
verbatim, or nothing (`{{if $methodInfo.Doc}}` guards the range). -/
def docLines : Option CommentGroup → List String
  | none => []
  | some g => g.list

/-- The rendered method line `{{$methodName}}{{ signature $methodInfo.Method }}`. -/
def methodLine (destPkgPath : String) (k : String) (mi : MethodInfo) : String :=
  k ++ renderSignature destPkgPath mi.method

/-- The lines one map entry contributes: its doc lines, then its method
line. -/
def entryLines (destPkgPath : String) (e : String × MethodInfo) : List String :=
  docLines e.2.doc ++ [methodLine destPkgPath e.1 e.2]

/-- Lexicographic comparison of rune sequences, by code point.  On UTF-8
encoded strings this coincides with the byte-wise order `sort.Strings`
uses. -/
def lexLe : List Char → List Char → Bool
  | [], _ => true
  | _ :: _, [] => false
  | a :: as, b :: bs =>
    if a.toNat < b.toNat then true
    else if b.toNat < a.toNat then false
    else lexLe as bs

/-- String order as a relation, for sorting the map keys. -/
def strLeRel (a b : String) : Prop := lexLe a.data b.data = true

instance : DecidableRel strLeRel := fun a b => by
  unfold strLeRel; infer_instance

/-- The key order `text/template` uses when ranging over the map: sorted. -/
def sortedKeys (ms : List (String × MethodInfo)) : List String :=
  (ms.map Prod.fst).insertionSort strLeRel

/-- The map's entries in template iteration order. -/
def sortEntries (ms : List (String × MethodInfo)) : List (String × MethodInfo) :=
  (sortedKeys ms).filterMap fun k => (lookupName k ms).map fun mi => (k, mi)

/-- The body lines of the emitted interface: the entries' lines in
template iteration order. -/
def interfaceBodyLines (destPkgPath : String) (ms : List (String × MethodInfo)) :
    List String :=
  (sortEntries ms).flatMap (entryLines destPkgPath)

/-- The interface construct produced by `template` (lines 153-160): the
leading comment, the `type ... interface` line, the per-method lines, and
the closing brace. -/
def interfaceLines (interfaceName packagePath structName destPkgPath : String)
    (ms : List (String × MethodInfo)) : List String :=
  ("//" ++ interfaceName ++ " contains exportable methods signatures of the " ++
      packagePath ++ "." ++ structName) ::
    ("type " ++ interfaceName ++ " interface \x7b") ::
    interfaceBodyLines destPkgPath ms ++ ["\x7d"]

/-- The provenance header set at lines 88-94 (`fmt.Sprintf` with `%q` on
the type name). -/
def headerLines (structName packagePath destPackagePath interfaceName : String) :
    List String :=
  [ "DO NOT EDIT!"
  , "This code was generated automatically using github.com/hexdigest/typeface"
  , "The original type \"" ++ structName ++ "\" can be found in " ++
      packagePath ++ " package"
  , "You can generate mock for this interface using github.com/gojuno/minimock:"
  , ""
  , "minimock -i " ++ destPackagePath ++ "." ++ interfaceName ++ " -o ./" ]

/-- Joining lines into the written file's text. -/
def joinLines : List String → String
  | [] => ""
  | [l] => l
  | l :: r :: rest => l ++ "\n" ++ joinLines (r :: rest)

/-- The full generated output: provenance header then the interface. -/
def renderOutput (structName packagePath destPackagePath interfaceName : String)
    (ms : List (String × MethodInfo)) : String :=
  joinLines (headerLines structName packagePath destPackagePath interfaceName ++
    interfaceLines interfaceName packagePath structName destPackagePath ms)

/-! ## The driver pipeline (`main`, lines 40-123) -/

/-- The flag values `processFlags` returns. -/
structure Options where
  inputFile : String
  outputFile : String
  interfaceName : String
  sourceTypeName : String
  pkg : String

/-- Everything `main` observes from outside: the file at the output path,
whether deleting it fails, whether `generator.PackageOf` fails (lines
44-53, before the removal), the package world, whether the resolved
package handle is present after loading (line 104), the type universe,
and whether the final write fails. -/
structure World where
  outputFile : Option String
  removeFails : Bool
  resolveErr : Bool
  pkgWorld : PkgWorld
  pkgPresent : Bool
  info : TypeInfo
  writeErr : Bool

/-- The error `main` dies with (`die` prints it and exits 1). -/
inductive RunError where
  | resolveFailure
  | removeFailure
  | loadFailure (msg : String)
  | packageNotFound (pkgPath : String)
  | typeResolutionFailure (msg : String)
  | noMethodsFound (typeName pkgPath : String)
  | writeFailure
  deriving DecidableEq, Repr

/-- Errors raised at or after the `os.Remove` call at line 69 (so raised
with the previous output file already gone). -/
def RunError.afterRemoval : RunError → Bool
  | .loadFailure _ => true
  | .packageNotFound _ => true
  | .typeResolutionFailure _ => true
  | .noMethodsFound _ _ => true
  | _ => false

/-- The message `die` prints for each error, per the `fmt.Errorf` calls. -/
def errMessage : RunError → String
  | .resolveFailure => "unable to resolve package"
  | .removeFailure => "unable to remove output file"
  | .loadFailure m => m
  | .packageNotFound p => "unable to load package: " ++ p
  | .typeResolutionFailure m => m
  | .noMethodsFound tn p =>
      "type " ++ tn ++ " was not found in " ++ p ++
        " or doesn't have any exported methods"
  | .writeFailure => "unable to write output file"

/-- How `main` terminates. -/
inductive RunOutcome where
  | finished
  | died (e : RunError)
  | panicked
  deriving DecidableEq, Repr

/-- The process exit status: 0 on success, 1 from `die` (`os.Exit(1)`),
2 on a Go runtime panic. -/
def exitCode : RunOutcome → Nat
  | .finished => 0
  | .died _ => 1
  | .panicked => 2

/-- `main` from line 44 onward: resolve the input and destination package
paths, delete any pre-existing output file (a missing file is not an
error), load the program, check the package handle, walk the
declarations, die when the method map is empty, and otherwise render and
write the output.  Returns the termination outcome and the file at the
output path when the run ends. -/
def runMain (opts : Options) (packagePath destPackagePath : String) (w : World) :
    RunOutcome × Option String :=
  if w.resolveErr then (.died .resolveFailure, w.outputFile)
  else if w.outputFile.isSome && w.removeFails then
    (.died .removeFailure, w.outputFile)
  else
    match loadPackage typefaceConfig w.pkgWorld with
    | .error m => (.died (.loadFailure m), none)
    | .ok pkg =>
      if !w.pkgPresent then (.died (.packageNotFound packagePath), none)
      else
        match extract w.info opts.sourceTypeName pkg.decls with
        | .fatal m => (.died (.typeResolutionFailure m), none)
        | .panicked => (.panicked, none)
        | .ok ms =>
          if ms.isEmpty then
            (.died (.noMethodsFound opts.sourceTypeName packagePath), none)
          else if w.writeErr then (.died .writeFailure, none)
          else
            (.finished,
              some (renderOutput opts.sourceTypeName packagePath
                destPackagePath opts.interfaceName ms))


/-! ## Properties of the dot-split -/

theorem splitOnDot_cons (c : Char) (cs : List Char) :
    splitOnDot (c :: cs) =
      if c = '.' then [] :: splitOnDot cs
      else
        match splitOnDot cs with
        | [] => [[c]]
        | r :: rs => (c :: r) :: rs := rfl

theorem splitOnDot_ne_nil (s : List Char) : splitOnDot s ≠ [] := by
  cases s with
  | nil => simp [splitOnDot]
  | cons c cs =>
    rw [splitOnDot_cons]
    by_cases h : c = '.'
    · simp [h]
    · rw [if_neg h]
      cases hs : splitOnDot cs <;> simp

theorem splitOnDot_cons_dot (cs : List Char) :
    splitOnDot ('.' :: cs) = [] :: splitOnDot cs := by
  rw [splitOnDot_cons, if_pos rfl]

theorem splitOnDot_cons_ne {c : Char} (h : c ≠ '.') {cs r : List Char}
    {rs : List (List Char)} (hs : splitOnDot cs = r :: rs) :
    splitOnDot (c :: cs) = (c :: r) :: rs := by
  rw [splitOnDot_cons, if_neg h, hs]

theorem splitOnDot_no_dot {s : List Char} (h : '.' ∉ s) : splitOnDot s = [s] := by
  induction s with
  | nil => rfl
  | cons c cs ih =>
    have hc : c ≠ '.' := fun hc => h (hc ▸ List.mem_cons_self c cs)
    have hcs : '.' ∉ cs := fun hm => h (List.mem_cons_of_mem c hm)
    rw [splitOnDot_cons_ne hc (ih hcs)]

theorem two_le_splitOnDot_length {s : List Char} (h : '.' ∈ s) :
    2 ≤ (splitOnDot s).length := by
  induction s with
  | nil => cases h
  | cons c cs ih =>
    by_cases hc : c = '.'
    · subst hc
      rw [splitOnDot_cons_dot]
      cases hs : splitOnDot cs with
      | nil => exact absurd hs (splitOnDot_ne_nil cs)
      | cons r rs => simp
    · have hcs : '.' ∈ cs := by
        rcases List.mem_cons.mp h with h1 | h1
        · exact absurd h1.symm hc
        · exact h1
      cases hs : splitOnDot cs with
      | nil => exact absurd hs (splitOnDot_ne_nil cs)
      | cons r rs =>
        rw [splitOnDot_cons_ne hc hs]
        have := ih hcs
        rw [hs] at this
        simpa using this

theorem getLastD_irrel {α : Type} {l : List α} (h : l ≠ []) (a b : α) :
    l.getLastD a = l.getLastD b := by
  cases l with
  | nil => exact absurd rfl h
  | cons x xs => rw [List.getLastD_cons, List.getLastD_cons]

theorem lastChunk_append_dot (l n : List Char) :
    lastChunk (l ++ '.' :: n) = lastChunk n := by
  induction l with
  | nil =>
    show lastChunk ('.' :: n) = lastChunk n
    unfold lastChunk
    rw [splitOnDot_cons_dot, List.getLastD_cons]
  | cons c l ih =>
    show lastChunk (c :: (l ++ '.' :: n)) = lastChunk n
    by_cases hc : c = '.'
    · subst hc
      unfold lastChunk
      rw [splitOnDot_cons_dot, List.getLastD_cons]
      exact ih
    · cases hs : splitOnDot (l ++ '.' :: n) with
      | nil => exact absurd hs (splitOnDot_ne_nil _)
      | cons r rs =>
        have hlen : 2 ≤ (splitOnDot (l ++ '.' :: n)).length :=
          two_le_splitOnDot_length (by simp)
        rw [hs] at hlen
        have hrs : rs ≠ [] := by
          cases rs with
          | nil => simp at hlen
          | cons _ _ => simp
        unfold lastChunk
        rw [splitOnDot_cons_ne hc hs, List.getLastD_cons]
        have h1 : rs.getLastD (c :: r) = rs.getLastD r := getLastD_irrel hrs _ _
        rw [h1]
        unfold lastChunk at ih
        rw [hs, List.getLastD_cons] at ih
        exact ih

theorem lastChunk_no_dot {s : List Char} (h : '.' ∉ s) : lastChunk s = s := by
  unfold lastChunk
  rw [splitOnDot_no_dot h]
  rfl

/-- The receiver-name computation of `Visit` on a value receiver: the last
dot-chunk of `pkgPath.Name` is `Name` (type names contain no dot). -/
theorem lastChunk_named {p i n : String} (h : '.' ∉ n.data) :
    lastChunk (GoType.named p i n).string = n.data := by
  show lastChunk (p.data ++ '.' :: n.data) = n.data
  rw [lastChunk_append_dot, lastChunk_no_dot h]

/-- The receiver-name computation of `Visit` on a pointer receiver: the
last dot-chunk of `*pkgPath.Name` is also `Name` — taking the final chunk
strips the pointer star together with the package path. -/
theorem lastChunk_ptr_named {p i n : String} (h : '.' ∉ n.data) :
    lastChunk (GoType.ptr (GoType.named p i n)).string = n.data := by
  show lastChunk ('*' :: (p.data ++ '.' :: n.data)) = n.data
  have h2 : '*' :: (p.data ++ '.' :: n.data) =
      ('*' :: p.data) ++ '.' :: n.data := rfl
  rw [h2, lastChunk_append_dot, lastChunk_no_dot h]

/-! ## Properties of the key order -/

theorem lexLe_cons (x y : Char) (xs ys : List Char) :
    lexLe (x :: xs) (y :: ys) =
      if x.toNat < y.toNat then true
      else if y.toNat < x.toNat then false
      else lexLe xs ys := rfl

theorem lexLe_total (a b : List Char) : lexLe a b = true ∨ lexLe b a = true := by
  induction a generalizing b with
  | nil => left; rfl
  | cons x xs ih =>
    cases b with
    | nil => right; rfl
    | cons y ys =>
      rcases Nat.lt_trichotomy x.toNat y.toNat with h | h | h
      · left
        rw [lexLe_cons, if_pos h]
      · have h1 : ¬ x.toNat < y.toNat := by omega
        have h2 : ¬ y.toNat < x.toNat := by omega
        rcases ih ys with hc | hc
        · left
          rw [lexLe_cons, if_neg h1, if_neg h2]
          exact hc
        · right
          rw [lexLe_cons, if_neg h2, if_neg h1]
          exact hc
      · right
        rw [lexLe_cons, if_pos h]

theorem lexLe_trans {a b c : List Char} (h₁ : lexLe a b = true)
    (h₂ : lexLe b c = true) : lexLe a c = true := by
  induction a generalizing b c with
  | nil => rfl
  | cons x xs ih =>
    cases b with
    | nil => simp [lexLe] at h₁
    | cons y ys =>
      cases c with
      | nil => simp [lexLe] at h₂
      | cons z zs =>
        rw [lexLe_cons] at h₁ h₂ ⊢
        rcases Nat.lt_trichotomy x.toNat y.toNat with hxy | hxy | hxy
        · rcases Nat.lt_trichotomy y.toNat z.toNat with hyz | hyz | hyz
          · rw [if_pos (by omega : x.toNat < z.toNat)]
          · rw [if_pos (by omega : x.toNat < z.toNat)]
          · rw [if_neg (by omega : ¬ y.toNat < z.toNat),
              if_pos (by omega : z.toNat < y.toNat)] at h₂
            cases h₂
        · rcases Nat.lt_trichotomy y.toNat z.toNat with hyz | hyz | hyz
          · rw [if_pos (by omega : x.toNat < z.toNat)]
          · rw [if_neg (by omega : ¬ x.toNat < z.toNat),
              if_neg (by omega : ¬ z.toNat < x.toNat)]
            rw [if_neg (by omega : ¬ x.toNat < y.toNat),
              if_neg (by omega : ¬ y.toNat < x.toNat)] at h₁
            rw [if_neg (by omega : ¬ y.toNat < z.toNat),
              if_neg (by omega : ¬ z.toNat < y.toNat)] at h₂
            exact ih h₁ h₂
          · rw [if_neg (by omega : ¬ y.toNat < z.toNat),
              if_pos (by omega : z.toNat < y.toNat)] at h₂
            cases h₂
        · rw [if_neg (by omega : ¬ x.toNat < y.toNat),
            if_pos (by omega : y.toNat < x.toNat)] at h₁
          cases h₁

theorem lexLe_antisymm {a b : List Char} (h₁ : lexLe a b = true)
    (h₂ : lexLe b a = true) : a = b := by
  induction a generalizing b with
  | nil =>
    cases b with
    | nil => rfl
    | cons y ys => simp [lexLe] at h₂
  | cons x xs ih =>
    cases b with
    | nil => simp [lexLe] at h₁
    | cons y ys =>
      rw [lexLe_cons] at h₁ h₂
      rcases Nat.lt_trichotomy x.toNat y.toNat with hxy | hxy | hxy
      · rw [if_neg (by omega : ¬ y.toNat < x.toNat),
          if_pos (by omega : x.toNat < y.toNat)] at h₂
        cases h₂
      · have hx : x = y := Char.ext (UInt32.toNat.inj hxy)
        rw [if_neg (by omega : ¬ x.toNat < y.toNat),
          if_neg (by omega : ¬ y.toNat < x.toNat)] at h₁
        rw [if_neg (by omega : ¬ y.toNat < x.toNat),
          if_neg (by omega : ¬ x.toNat < y.toNat)] at h₂
        rw [hx, ih h₁ h₂]
      · rw [if_neg (by omega : ¬ x.toNat < y.toNat),
          if_pos (by omega : y.toNat < x.toNat)] at h₁
        cases h₁

instance : IsTotal String strLeRel :=
  ⟨fun a b => lexLe_total a.data b.data⟩

instance : IsTrans String strLeRel :=
  ⟨fun _ _ _ h₁ h₂ => lexLe_trans h₁ h₂⟩

instance : IsAntisymm String strLeRel :=
  ⟨fun _ _ h₁ h₂ => String.ext (lexLe_antisymm h₁ h₂)⟩

/-! ## Properties of the method map -/

theorem mapInsert_cons (k k' : String) (v v' : MethodInfo)
    (ms : List (String × MethodInfo)) :
    mapInsert k v ((k', v') :: ms) =
      if k' = k then (k, v) :: ms else (k', v') :: mapInsert k v ms := rfl

theorem lookupName_cons (k k' : String) (v : MethodInfo)
    (ms : List (String × MethodInfo)) :
    lookupName k ((k', v) :: ms) =
      if k' = k then some v else lookupName k ms := rfl

theorem lookupName_mapInsert_self (k : String) (v : MethodInfo)
    (ms : List (String × MethodInfo)) :
    lookupName k (mapInsert k v ms) = some v := by
  induction ms with
  | nil => simp [mapInsert, lookupName]
  | cons p rest ih =>
    obtain ⟨k', v'⟩ := p
    rw [mapInsert_cons]
    by_cases h : k' = k
    · rw [if_pos h, lookupName_cons, if_pos rfl]
    · rw [if_neg h, lookupName_cons, if_neg h]
      exact ih

theorem lookupName_mapInsert_ne {k k' : String} (h : k' ≠ k) (v : MethodInfo)
    (ms : List (String × MethodInfo)) :
    lookupName k (mapInsert k' v ms) = lookupName k ms := by
  induction ms with
  | nil => simp [mapInsert, lookupName, h]
  | cons p rest ih =>
    obtain ⟨k'', v''⟩ := p
    rw [mapInsert_cons]
    by_cases h2 : k'' = k'
    · subst h2
      rw [if_pos rfl, lookupName_cons, lookupName_cons, if_neg h, if_neg h]
    · rw [if_neg h2, lookupName_cons, lookupName_cons]
      by_cases h3 : k'' = k
      · rw [if_pos h3, if_pos h3]
      · rw [if_neg h3, if_neg h3]
        exact ih

theorem mem_mapInsert {a k : String} {b v : MethodInfo}
    {ms : List (String × MethodInfo)} (h : (a, b) ∈ mapInsert k v ms) :
    (a = k ∧ b = v) ∨ (a, b) ∈ ms := by
  induction ms with
  | nil =>
    simp only [mapInsert, List.mem_singleton] at h
    exact Or.inl ⟨congrArg Prod.fst h, congrArg Prod.snd h⟩
  | cons p rest ih =>
    obtain ⟨k', v'⟩ := p
    rw [mapInsert_cons] at h
    by_cases h2 : k' = k
    · rw [if_pos h2] at h
      rcases List.mem_cons.mp h with h3 | h3
      · exact Or.inl ⟨congrArg Prod.fst h3, congrArg Prod.snd h3⟩
      · exact Or.inr (List.mem_cons_of_mem _ h3)
    · rw [if_neg h2] at h
      rcases List.mem_cons.mp h with h3 | h3
      · exact Or.inr (List.mem_cons.mpr (Or.inl h3))
      · rcases ih h3 with h4 | h4
        · exact Or.inl h4
        · exact Or.inr (List.mem_cons_of_mem _ h4)

theorem keys_mapInsert_nodup {k : String} {v : MethodInfo}
    {ms : List (String × MethodInfo)} (h : (ms.map Prod.fst).Nodup) :
    ((mapInsert k v ms).map Prod.fst).Nodup := by
  induction ms with
  | nil => simp [mapInsert]
  | cons p rest ih =>
    obtain ⟨k', v'⟩ := p
    simp only [List.map_cons, List.nodup_cons] at h
    rw [mapInsert_cons]
    by_cases h2 : k' = k
    · subst h2
      rw [if_pos rfl]
      simp only [List.map_cons, List.nodup_cons]
      exact h
    · rw [if_neg h2]
      simp only [List.map_cons, List.nodup_cons]
      refine ⟨fun hmem => ?_, ih h.2⟩
      rcases List.mem_map.mp hmem with ⟨⟨a, b⟩, hab, hfst⟩
      rcases mem_mapInsert hab with ⟨h3, _⟩ | h3
      · exact h2 (hfst ▸ h3 ▸ rfl)
      · exact h.1 (List.mem_map.mpr ⟨(a, b), h3, hfst⟩)

theorem lookupName_eq_some_of_mem {k : String} {v : MethodInfo}
    {ms : List (String × MethodInfo)} (hnd : (ms.map Prod.fst).Nodup)
    (h : (k, v) ∈ ms) : lookupName k ms = some v := by
  induction ms with
  | nil => cases h
  | cons p rest ih =>
    obtain ⟨k', v'⟩ := p
    simp only [List.map_cons, List.nodup_cons] at hnd
    rcases List.mem_cons.mp h with h2 | h2
    · have h3 : k = k' := congrArg Prod.fst h2
      have h4 : v = v' := congrArg Prod.snd h2
      rw [lookupName_cons, if_pos h3.symm, h4]
    · rw [lookupName_cons]
      by_cases h3 : k' = k
      · subst h3
        exact absurd (List.mem_map.mpr ⟨(k', v), h2, rfl⟩) hnd.1
      · rw [if_neg h3]
        exact ih hnd.2 h2

theorem mem_of_lookupName_eq_some {k : String} {v : MethodInfo}
    {ms : List (String × MethodInfo)} (h : lookupName k ms = some v) :
    (k, v) ∈ ms := by
  induction ms with
  | nil => simp [lookupName] at h
  | cons p rest ih =>
    obtain ⟨k', v'⟩ := p
    rw [lookupName_cons] at h
    by_cases h2 : k' = k
    · rw [if_pos h2] at h
      have h4 : v' = v := Option.some.inj h
      exact List.mem_cons.mpr (Or.inl (by rw [← h2, h4]))
    · rw [if_neg h2] at h
      exact List.mem_cons_of_mem _ (ih h)

theorem lookupName_eq_none_iff {k : String} {ms : List (String × MethodInfo)} :
    lookupName k ms = none ↔ k ∉ ms.map Prod.fst := by
  induction ms with
  | nil => simp [lookupName]
  | cons p rest ih =>
    obtain ⟨k', v'⟩ := p
    rw [lookupName_cons]
    by_cases h : k' = k
    · simp [h]
    · rw [if_neg h, ih]
      simp only [List.map_cons, List.mem_cons]
      constructor
      · intro hk hor
        rcases hor with h1 | h1
        · exact h (h1 ▸ rfl)
        · exact hk h1
      · intro hk hm
        exact hk (Or.inr hm)

theorem lookupName_eq_of_perm {ms₁ ms₂ : List (String × MethodInfo)}
    (hnd : (ms₁.map Prod.fst).Nodup) (hp : ms₁.Perm ms₂) (k : String) :
    lookupName k ms₁ = lookupName k ms₂ := by
  have hnd₂ : (ms₂.map Prod.fst).Nodup := (hp.map Prod.fst).nodup_iff.mp hnd
  cases h : lookupName k ms₁ with
  | some v =>
    exact (lookupName_eq_some_of_mem hnd₂
      (hp.mem_iff.mp (mem_of_lookupName_eq_some h))).symm
  | none =>
    have h2 : k ∉ ms₂.map Prod.fst := fun hm =>
      lookupName_eq_none_iff.mp h ((hp.map Prod.fst).mem_iff.mpr hm)
    exact (lookupName_eq_none_iff.mpr h2).symm

/-! ## Computation lemmas for `visit` -/

theorem visit_insert {info : TypeInfo} {src : String} {d : FuncDecl}
    {f : Expr} {fs : List Expr} {c : Char} {cr : List Char} {t : GoType}
    {s : Signature} (ms : List (String × MethodInfo))
    (hrecv : d.recv = some (f :: fs)) (hname : d.name.data = c :: cr)
    (hc : c.toUpper = c) (hexpr : info.exprType f = .ok t)
    (hlast : lastChunk t.string = src.data)
    (hobj : info.objectOf d = some (.sig s)) :
    visit info src ms (.funcDecl d) =
      .ok (mapInsert d.name ⟨s, d.doc⟩ ms) false := by
  simp [visit, hrecv, hname, hc, hexpr, hlast, hobj]

theorem visit_fatal {info : TypeInfo} {src : String} {d : FuncDecl}
    {f : Expr} {fs : List Expr} {c : Char} {cr : List Char} {e : String}
    (ms : List (String × MethodInfo))
    (hrecv : d.recv = some (f :: fs)) (hname : d.name.data = c :: cr)
    (hc : c.toUpper = c) (hexpr : info.exprType f = .error e) :
    visit info src ms (.funcDecl d) =
      .fatal ("failed to get expression for *ast.FuncType " ++
        d.name ++ ": " ++ e) := by
  simp [visit, hrecv, hname, hc, hexpr]

theorem visit_nonsig {info : TypeInfo} {src : String} {d : FuncDecl}
    {f : Expr} {fs : List Expr} {c : Char} {cr : List Char} {t : GoType}
    (ms : List (String × MethodInfo))
    (hrecv : d.recv = some (f :: fs)) (hname : d.name.data = c :: cr)
    (hc : c.toUpper = c) (hexpr : info.exprType f = .ok t)
    (hlast : lastChunk t.string = src.data)
    (hobj : info.objectOf d = some .nonsig) :
    visit info src ms (.funcDecl d) = .ok ms false := by
  simp [visit, hrecv, hname, hc, hexpr, hlast, hobj]

theorem visit_skip_unexported {info : TypeInfo} {src : String} {d : FuncDecl}
    {rl : List Expr} {c : Char} {cr : List Char}
    (ms : List (String × MethodInfo)) (hrecv : d.recv = some rl)
    (hname : d.name.data = c :: cr) (hc : ¬ c.toUpper = c) :
    visit info src ms (.funcDecl d) = .ok ms true := by
  simp [visit, hrecv, hname, hc]

theorem visit_skip_mismatch {info : TypeInfo} {src : String} {d : FuncDecl}
    {f : Expr} {fs : List Expr} {c : Char} {cr : List Char} {t : GoType}
    (ms : List (String × MethodInfo))
    (hrecv : d.recv = some (f :: fs)) (hname : d.name.data = c :: cr)
    (hc : c.toUpper = c) (hexpr : info.exprType f = .ok t)
    (hlast : ¬ lastChunk t.string = src.data) :
    visit info src ms (.funcDecl d) = .ok ms false := by
  simp [visit, hrecv, hname, hc, hexpr, hlast]

theorem visit_ok_inversion {info : TypeInfo} {src : String}
    {ms ms' : List (String × MethodInfo)} {b : Bool} {n : Node}
    (h : visit info src ms n = .ok ms' b) :
    ms' = ms ∨
      ∃ d s, n = .funcDecl d ∧ codeExportCheck d.name = true ∧
        (∃ f fs t, d.recv = some (f :: fs) ∧ info.exprType f = .ok t ∧
          lastChunk t.string = src.data) ∧
        info.objectOf d = some (.sig s) ∧
        ms' = mapInsert d.name ⟨s, d.doc⟩ ms := by
  cases n with
  | other =>
    left
    simp only [visit] at h
    exact ((VisitOutcome.ok.inj h).1).symm
  | funcDecl d =>
    cases hrecv : d.recv with
    | none =>
      left
      simp only [visit, hrecv] at h
      exact ((VisitOutcome.ok.inj h).1).symm
    | some rl =>
      cases hname : d.name.data with
      | nil =>
        simp only [visit, hrecv, hname] at h
        exact VisitOutcome.noConfusion h
      | cons c cr =>
        by_cases hc : c.toUpper = c
        · cases rl with
          | nil =>
            simp only [visit, hrecv, hname, if_pos hc] at h
            exact VisitOutcome.noConfusion h
          | cons f fs =>
            cases hexpr : info.exprType f with
            | error e =>
              rw [visit_fatal ms hrecv hname hc hexpr] at h
              cases h
            | ok t =>
              by_cases hlast : lastChunk t.string = src.data
              · cases hobj : info.objectOf d with
                | none =>
                  simp only [visit, hrecv, hname, if_pos hc, hexpr,
                    if_pos hlast, hobj] at h
                  exact VisitOutcome.noConfusion h
                | some o =>
                  cases o with
                  | sig s =>
                    rw [visit_insert ms hrecv hname hc hexpr hlast hobj] at h
                    right
                    exact ⟨d, s, rfl,
                      by simp [codeExportCheck, hname, hc],
                      ⟨f, fs, t, hrecv, hexpr, hlast⟩, hobj,
                      ((VisitOutcome.ok.inj h).1).symm⟩
                  | nonsig =>
                    left
                    rw [visit_nonsig ms hrecv hname hc hexpr hlast hobj] at h
                    exact ((VisitOutcome.ok.inj h).1).symm
              · left
                rw [visit_skip_mismatch ms hrecv hname hc hexpr hlast] at h
                exact ((VisitOutcome.ok.inj h).1).symm
        · left
          rw [visit_skip_unexported ms hrecv hname hc] at h
          exact ((VisitOutcome.ok.inj h).1).symm

/-! ## Properties of the extraction fold -/

theorem extractFrom_mem {info : TypeInfo} {src : String}
    {ms₀ ms : List (String × MethodInfo)} {nodes : List Node}
    (h : extractFrom info src ms₀ nodes = .ok ms)
    {k : String} {v : MethodInfo} (hmem : (k, v) ∈ ms) :
    (k, v) ∈ ms₀ ∨
      ∃ d, Node.funcDecl d ∈ nodes ∧ d.name = k ∧
        codeExportCheck k = true ∧
        (∃ f fs t, d.recv = some (f :: fs) ∧ info.exprType f = .ok t ∧
          lastChunk t.string = src.data) ∧
        info.objectOf d = some (.sig v.method) ∧ v.doc = d.doc := by
  induction nodes generalizing ms₀ with
  | nil =>
    left
    simp only [extractFrom] at h
    exact (ExtractResult.ok.inj h) ▸ hmem
  | cons n rest ih =>
    simp only [extractFrom] at h
    cases hv : visit info src ms₀ n with
    | fatal m =>
      simp only [hv] at h
      exact ExtractResult.noConfusion h
    | panicked =>
      simp only [hv] at h
      exact ExtractResult.noConfusion h
    | ok ms' b =>
      simp only [hv] at h
      rcases ih h with h1 | h1
      · rcases visit_ok_inversion hv with h2 | h2
        · left
          exact h2 ▸ h1
        · obtain ⟨d, s, hn, hexp, hrm, hobj, hins⟩ := h2
          rw [hins] at h1
          rcases mem_mapInsert h1 with ⟨hk, hv2⟩ | h3
          · right
            subst hk
            refine ⟨d, hn ▸ List.mem_cons_self n rest, rfl, hexp, hrm, ?_, ?_⟩
            · rw [hv2]
              exact hobj
            · rw [hv2]
          · left
            exact h3
      · obtain ⟨d, hd, hrest⟩ := h1
        exact Or.inr ⟨d, List.mem_cons_of_mem n hd, hrest⟩

theorem extractFrom_keys_nodup {info : TypeInfo} {src : String}
    {ms₀ ms : List (String × MethodInfo)} {nodes : List Node}
    (h0 : (ms₀.map Prod.fst).Nodup)
    (h : extractFrom info src ms₀ nodes = .ok ms) :
    (ms.map Prod.fst).Nodup := by
  induction nodes generalizing ms₀ with
  | nil =>
    simp only [extractFrom] at h
    exact (ExtractResult.ok.inj h) ▸ h0
  | cons n rest ih =>
    simp only [extractFrom] at h
    cases hv : visit info src ms₀ n with
    | fatal m =>
      simp only [hv] at h
      exact ExtractResult.noConfusion h
    | panicked =>
      simp only [hv] at h
      exact ExtractResult.noConfusion h
    | ok ms' b =>
      simp only [hv] at h
      rcases visit_ok_inversion hv with h2 | h2
      · exact ih (h2 ▸ h0) h
      · obtain ⟨d, s, hn, hexp, hrm, hobj, hins⟩ := h2
        exact ih (hins ▸ keys_mapInsert_nodup h0) h

theorem extract_keys_nodup {info : TypeInfo} {src : String}
    {ms : List (String × MethodInfo)} {nodes : List Node}
    (h : extract info src nodes = .ok ms) : (ms.map Prod.fst).Nodup :=
  extractFrom_keys_nodup (by simp) h

theorem extractFrom_lookup_preserved {info : TypeInfo} {src k : String}
    {v : MethodInfo} {ms₀ ms : List (String × MethodInfo)} {nodes : List Node}
    (hlk : lookupName k ms₀ = some v)
    (hins : ∀ d', Node.funcDecl d' ∈ nodes → d'.name = k →
      (∃ f fs t, d'.recv = some (f :: fs) ∧ info.exprType f = .ok t ∧
        lastChunk t.string = src.data) →
      ∀ s', info.objectOf d' = some (.sig s') →
        MethodInfo.mk s' d'.doc = v)
    (h : extractFrom info src ms₀ nodes = .ok ms) :
    lookupName k ms = some v := by
  induction nodes generalizing ms₀ with
  | nil =>
    simp only [extractFrom] at h
    exact (ExtractResult.ok.inj h) ▸ hlk
  | cons n rest ih =>
    simp only [extractFrom] at h
    cases hv : visit info src ms₀ n with
    | fatal m =>
      simp only [hv] at h
      exact ExtractResult.noConfusion h
    | panicked =>
      simp only [hv] at h
      exact ExtractResult.noConfusion h
    | ok ms' b =>
      simp only [hv] at h
      have hins' : ∀ d', Node.funcDecl d' ∈ rest → d'.name = k →
          (∃ f fs t, d'.recv = some (f :: fs) ∧ info.exprType f = .ok t ∧
            lastChunk t.string = src.data) →
          ∀ s', info.objectOf d' = some (.sig s') →
            MethodInfo.mk s' d'.doc = v :=
        fun d' hd' => hins d' (List.mem_cons_of_mem n hd')
      rcases visit_ok_inversion hv with h2 | h2
      · exact ih (h2 ▸ hlk) hins' h
      · obtain ⟨d, s, hn, hexp, hrm, hobj2, heq⟩ := h2
        rw [heq] at h
        by_cases hk : d.name = k
        · have hval : MethodInfo.mk s d.doc = v :=
            hins d (hn ▸ List.mem_cons_self n rest) hk hrm s hobj2
          have hlk' : lookupName k
              (mapInsert d.name ⟨s, d.doc⟩ ms₀) = some v := by
            rw [hk, lookupName_mapInsert_self, hval]
          exact ih hlk' hins' h
        · exact ih (by rw [lookupName_mapInsert_ne hk, hlk]) hins' h

theorem extractFrom_collects {info : TypeInfo} {src : String} {d : FuncDecl}
    {f : Expr} {fs : List Expr} {c : Char} {cr : List Char} {t : GoType}
    {s : Signature} {ms₀ ms : List (String × MethodInfo)} {nodes : List Node}
    (hrecv : d.recv = some (f :: fs)) (hname : d.name.data = c :: cr)
    (hc : c.toUpper = c) (hexpr : info.exprType f = .ok t)
    (hlast : lastChunk t.string = src.data)
    (hobj : info.objectOf d = some (.sig s))
    (hmem : Node.funcDecl d ∈ nodes)
    (huniq : ∀ d', Node.funcDecl d' ∈ nodes → d'.name = d.name →
      (∃ f' fs' t', d'.recv = some (f' :: fs') ∧ info.exprType f' = .ok t' ∧
        lastChunk t'.string = src.data) → d' = d)
    (h : extractFrom info src ms₀ nodes = .ok ms) :
    lookupName d.name ms = some ⟨s, d.doc⟩ := by
  induction nodes generalizing ms₀ with
  | nil => cases hmem
  | cons n rest ih =>
    simp only [extractFrom] at h
    have huniq' : ∀ d', Node.funcDecl d' ∈ rest → d'.name = d.name →
        (∃ f' fs' t', d'.recv = some (f' :: fs') ∧ info.exprType f' = .ok t' ∧
          lastChunk t'.string = src.data) → d' = d :=
      fun d' hd' => huniq d' (List.mem_cons_of_mem n hd')
    by_cases hn : n = Node.funcDecl d
    · subst hn
      have hv0 := @visit_insert info src d f fs c cr t s ms₀
        hrecv hname hc hexpr hlast hobj
      simp only [hv0] at h
      refine extractFrom_lookup_preserved
        (lookupName_mapInsert_self d.name ⟨s, d.doc⟩ ms₀) ?_ h
      intro d' hd' hnm hmatch s' hobj2
      have hd : d' = d := huniq d' (List.mem_cons_of_mem _ hd') hnm hmatch
      subst hd
      have hs : s' = s :=
        ObjType.sig.inj (Option.some.inj (hobj2.symm.trans hobj))
      rw [hs]
    · cases hv : visit info src ms₀ n with
      | fatal m =>
        simp only [hv] at h
        exact ExtractResult.noConfusion h
      | panicked =>
        simp only [hv] at h
        exact ExtractResult.noConfusion h
      | ok ms' b =>
        simp only [hv] at h
        have hmem' : Node.funcDecl d ∈ rest := by
          rcases List.mem_cons.mp hmem with h1 | h1
          · exact absurd h1.symm hn
          · exact h1
        exact ih hmem' huniq' h

/-! ## Properties of the emission order -/

theorem sortedKeys_eq_of_perm {ms₁ ms₂ : List (String × MethodInfo)}
    (hp : ms₁.Perm ms₂) : sortedKeys ms₁ = sortedKeys ms₂ :=
  List.eq_of_perm_of_sorted
    ((List.perm_insertionSort strLeRel _).trans
      ((hp.map Prod.fst).trans (List.perm_insertionSort strLeRel _).symm))
    (List.sorted_insertionSort strLeRel _)
    (List.sorted_insertionSort strLeRel _)

theorem sortEntries_eq_of_perm {ms₁ ms₂ : List (String × MethodInfo)}
    (hnd : (ms₁.map Prod.fst).Nodup) (hp : ms₁.Perm ms₂) :
    sortEntries ms₁ = sortEntries ms₂ := by
  unfold sortEntries
  rw [sortedKeys_eq_of_perm hp]
  have hfun : (fun k => (lookupName k ms₁).map fun mi => (k, mi)) =
      (fun k => (lookupName k ms₂).map fun mi => (k, mi)) :=
    funext fun k => by rw [lookupName_eq_of_perm hnd hp k]
  rw [hfun]

theorem filterMap_keys_sublist (g : String → Option MethodInfo)
    (ks : List String) :
    ((ks.filterMap fun k => (g k).map fun mi => (k, mi)).map
      Prod.fst).Sublist ks := by
  induction ks with
  | nil => simp
  | cons k ks ih =>
    rw [List.filterMap_cons]
    cases hg : g k with
    | none => exact ih.cons k
    | some mi =>
      simp only [Option.map_some']
      rw [List.map_cons]
      exact ih.cons₂ k

theorem sortEntries_names_sorted (ms : List (String × MethodInfo)) :
    ((sortEntries ms).map Prod.fst).Sorted strLeRel :=
  (List.sorted_insertionSort strLeRel _).sublist
    (filterMap_keys_sublist (fun k => lookupName k ms) _)

theorem mem_sortEntries_of_mem {ms : List (String × MethodInfo)}
    (hnd : (ms.map Prod.fst).Nodup) {k : String} {v : MethodInfo}
    (hmem : (k, v) ∈ ms) : (k, v) ∈ sortEntries ms := by
  unfold sortEntries
  refine List.mem_filterMap.mpr ⟨k, ?_, ?_⟩
  · exact (List.mem_insertionSort strLeRel).mpr
      (List.mem_map.mpr ⟨(k, v), hmem, rfl⟩)
  · rw [lookupName_eq_some_of_mem hnd hmem]
    rfl

theorem flatMap_adjacent {α β : Type} (f : α → List β) {a : α} {l : List α}
    (h : a ∈ l) : ∃ pre post, l.flatMap f = pre ++ (f a ++ post) := by
  obtain ⟨s, t, rfl⟩ := List.append_of_mem h
  refine ⟨s.flatMap f, t.flatMap f, ?_⟩
  simp

/-! ## Properties of the driver pipeline -/

theorem loadPackage_typeface_ok (w : PkgWorld) (hloc : w.locatable = true) :
    loadPackage typefaceConfig w =
      .ok { checkedBodies := [], surfacedErrors := [], decls := w.decls } := by
  simp [loadPackage, typefaceConfig, hloc]

theorem runMain_reaches_extract (opts : Options)
    (packagePath destPackagePath : String) (w : World)
    (h1 : w.resolveErr = false)
    (h2 : (w.outputFile.isSome && w.removeFails) = false)
    (h3 : w.pkgWorld.locatable = true) (h4 : w.pkgPresent = true) :
    runMain opts packagePath destPackagePath w =
      (match extract w.info opts.sourceTypeName w.pkgWorld.decls with
       | .fatal m => (.died (.typeResolutionFailure m), none)
       | .panicked => (.panicked, none)
       | .ok ms =>
         if ms.isEmpty then
           (.died (.noMethodsFound opts.sourceTypeName packagePath), none)
         else if w.writeErr then (.died .writeFailure, none)
         else
           (.finished,
             some (renderOutput opts.sourceTypeName packagePath
               destPackagePath opts.interfaceName ms))) := by
  unfold runMain
  rw [loadPackage_typeface_ok w.pkgWorld h3]
  simp [h1, h2, h4]

/-! ## Concrete fixtures

A small package `example.com/w` declaring struct types `Widget` and
`Other`, used to evaluate the definitions on closed inputs. -/

/-- `func (w *Widget) Name() string` with a doc comment. -/
def nameDecl : FuncDecl where
  name := "Name"
  recv := some [.star (.ident "Widget")]
  doc := some ⟨["// Name returns the widget name"]⟩

/-- `func (w Widget) id() string`: unexported. -/
def idDecl : FuncDecl where
  name := "id"
  recv := some [.ident "Widget"]
  doc := none

/-- `func (w Widget) _Foo() string`: not exported by Go's convention, yet
its first character is unchanged by upper-casing. -/
def underscoreDecl : FuncDecl where
  name := "_Foo"
  recv := some [.ident "Widget"]
  doc := none

/-- `func (w Widget) Bad() string` whose name resolves to a non-signature
object type in `widgetInfo`. -/
def badDecl : FuncDecl where
  name := "Bad"
  recv := some [.ident "Widget"]
  doc := none

/-- `func (w Widget) Good() string`. -/
def goodDecl : FuncDecl where
  name := "Good"
  recv := some [.ident "Widget"]
  doc := none

/-- The expected record for a method resolved through `widgetInfo`. -/
def stringResultInfo (doc : Option CommentGroup) : MethodInfo where
  method := ⟨[], [.basic "string"]⟩
  doc := doc

/-- `func (o Other) Name() string`: an exported method sharing `Name`
with `nameDecl` but bound to the type `Other` — the spec's completeness
scenario. -/
def otherNameDecl : FuncDecl where
  name := "Name"
  recv := some [.ident "Other"]
  doc := none

/-- The type universe of `example.com/w`: receiver expressions `Widget`,
`*Widget` and `Other` resolve to the corresponding named types.  Every
declaration's name identifier resolves to its own object: `Bad`'s object
has a non-signature type, `Other.Name` has its own signature (distinct
from `Widget.Name`'s), and every other declaration resolves to a
`func() string` signature. -/
def widgetInfo : TypeInfo where
  exprType := fun e =>
    match e with
    | .ident "Widget" => .ok (.named "example.com/w" "w" "Widget")
    | .star (.ident "Widget") => .ok (.ptr (.named "example.com/w" "w" "Widget"))
    | .ident "Other" => .ok (.named "example.com/w" "w" "Other")
    | _ => .error "unresolved receiver type"
  objectOf := fun d =>
    if d.name = "Bad" then some .nonsig
    else if d = otherNameDecl then some (.sig ⟨[], [.basic "int"]⟩)
    else some (.sig ⟨[], [.basic "string"]⟩)

/-- Like `widgetInfo`, but every identifier resolves to a nil object. -/
def nilObjInfo : TypeInfo where
  exprType := widgetInfo.exprType
  objectOf := fun _ => none

/-- `func (w Widget) Odd() string` whose receiver expression does not
resolve in `widgetInfo`. -/
def oddDecl : FuncDecl where
  name := "Odd"
  recv := some [.ident "Unknown"]
  doc := none

/-- The flag values of a typical run. -/
def defaultOpts : Options where
  inputFile := "./w"
  outputFile := "./d/widgeter.go"
  interfaceName := "Widgeter"
  sourceTypeName := "Widget"
  pkg := "d"

/-- `nameDecl`'s doc comment group. -/
def nameComment : CommentGroup := ⟨["// Name returns the widget name"]⟩

/-- A method map carrying one documented and one undocumented method. -/
def docMs : List (String × MethodInfo) :=
  [("Name", stringResultInfo (some nameComment)),
   ("Good", stringResultInfo none)]

/-- A world in which everything succeeds: a stale output file exists and
is removable, both packages resolve, the package loads (with a swallowed
type error present), the handle is present, and the write succeeds. -/
def okWorld : World where
  outputFile := some "// stale generated file"
  removeFails := false
  resolveErr := false
  pkgWorld :=
    { locatable := true
    , typeErrors := ["undeclared name: x"]
    , files := ["w.go"]
    , decls := [.funcDecl nameDecl, .funcDecl idDecl] }
  pkgPresent := true
  info := widgetInfo
  writeErr := false

/-- `okWorld` with only an unexported method declared. -/
def emptyWorld : World :=
  { okWorld with
      pkgWorld := { okWorld.pkgWorld with decls := [.funcDecl idDecl] } }

/-- `okWorld` with an unresolvable receiver among the declarations. -/
def fatalWorld : World :=
  { okWorld with
      pkgWorld := { okWorld.pkgWorld with decls := [.funcDecl oddDecl] } }

/-- `okWorld` with a package that cannot be located. -/
def badLoadWorld : World :=
  { okWorld with
      pkgWorld := { okWorld.pkgWorld with locatable := false } }

/-- `okWorld` with no pre-existing file at the output path. -/
def noFileWorld : World := { okWorld with outputFile := none }

/-! ## The claims -/

/-- C7: in a rendered signature, a type defined in the destination
package is rendered unqualified (bare name), a type defined in any other
package is rendered package-qualified as `pkg.TypeName` using the package
identifier the type checker associates with that package, and rendering a
signature applies this rule to every parameter and result type in order. -/
theorem C7_theorem :
    (∀ dest i n, renderType dest (.named dest i n) = n) ∧
    (∀ dest p i n, p ≠ dest → renderType dest (.named p i n) = i ++ "." ++ n) ∧
    (∀ dest s, renderSignature dest s =
      assembleSignature (s.params.map (renderType dest))
        (s.results.map (renderType dest))) :=
  ⟨fun dest i n => by simp [renderType],
   fun dest p i n h => by simp [renderType, h],
   fun dest s => rfl⟩

/-- C7 witness: a foreign type qualifies with its package identifier, a
destination-package type renders bare. -/
theorem C7_witness :
    renderType "example.com/d" (.named "example.com/w" "w" "Widget") =
      "w" ++ "." ++ "Widget" ∧
    renderType "example.com/d" (.named "example.com/d" "d" "Local") = "Local" :=
  ⟨C7_theorem.2.1 "example.com/d" "example.com/w" "w" "Widget" (by decide),
   C7_theorem.1 "example.com/d" "d" "Local"⟩

/-- C6: under the configuration `main` builds, loading succeeds for every
world in which the package can be located and parsed, regardless of
type-checker diagnostics (all swallowed, surfacing none) and with no
function body type-checked; loading fails exactly when the package cannot
be located; and a missing package handle after a successful load is the
remaining loader-level fatal condition, dying with `packageNotFound`. -/
theorem C6_theorem :
    (∀ w : PkgWorld, w.locatable = true →
      loadPackage typefaceConfig w =
        .ok { checkedBodies := [], surfacedErrors := [], decls := w.decls }) ∧
    (∀ w : PkgWorld, w.locatable = false →
      loadPackage typefaceConfig w = .error "could not locate or parse package") ∧
    (∀ f, typefaceConfig.typeCheckFuncBodies f = false) ∧
    (∀ (opts : Options) (packagePath destPackagePath : String) (w : World),
      w.resolveErr = false → (w.outputFile.isSome && w.removeFails) = false →
      w.pkgWorld.locatable = true → w.pkgPresent = false →
      runMain opts packagePath destPackagePath w =
        (.died (.packageNotFound packagePath), none)) := by
  refine ⟨loadPackage_typeface_ok, ?_, fun _ => rfl, ?_⟩
  · intro w h
    simp [loadPackage, h]
  · intro opts pp dp w h1 h2 h3 h4
    unfold runMain
    rw [loadPackage_typeface_ok w.pkgWorld h3]
    simp [h1, h2, h4]

/-- C6 witness: `okWorld`'s package has a pending type error yet loads
with no surfaced errors and no bodies checked; the same world with the
package handle absent dies with `packageNotFound`. -/
theorem C6_witness :
    loadPackage typefaceConfig okWorld.pkgWorld =
      .ok { checkedBodies := [], surfacedErrors := []
          , decls := okWorld.pkgWorld.decls } ∧
    runMain defaultOpts "example.com/w" "example.com/d"
        { okWorld with pkgPresent := false } =
      (.died (.packageNotFound "example.com/w"), none) :=
  ⟨C6_theorem.1 okWorld.pkgWorld rfl,
   C6_theorem.2.2.2 defaultOpts "example.com/w" "example.com/d"
     { okWorld with pkgPresent := false } rfl rfl rfl rfl⟩

/-- C2: the emitted output is a function of the extracted mapping's
contents alone — two runs whose maps hold the same entries, however
ordered, produce byte-for-byte identical output — and the emitted method
entries appear in sorted (lexicographic) name order, the order
`text/template` uses when ranging over a map. -/
theorem C2_theorem (structName packagePath destPackagePath interfaceName : String)
    (ms₁ ms₂ : List (String × MethodInfo))
    (hnd : (ms₁.map Prod.fst).Nodup) (hp : ms₁.Perm ms₂) :
    renderOutput structName packagePath destPackagePath interfaceName ms₁ =
      renderOutput structName packagePath destPackagePath interfaceName ms₂ ∧
    ((sortEntries ms₁).map Prod.fst).Sorted strLeRel := by
  refine ⟨?_, sortEntries_names_sorted ms₁⟩
  unfold renderOutput interfaceLines interfaceBodyLines
  rw [sortEntries_eq_of_perm hnd hp]

/-- C2 witness: two accumulation orders of the same two methods render
identically, and the emitted names are sorted. -/
theorem C2_witness :
    renderOutput "Widget" "example.com/w" "example.com/d" "Widgeter"
        [("Name", stringResultInfo none), ("Good", stringResultInfo none)] =
      renderOutput "Widget" "example.com/w" "example.com/d" "Widgeter"
        [("Good", stringResultInfo none), ("Name", stringResultInfo none)] ∧
    ((sortEntries [("Name", stringResultInfo none),
      ("Good", stringResultInfo none)]).map Prod.fst).Sorted strLeRel :=
  C2_theorem "Widget" "example.com/w" "example.com/d" "Widgeter"
    [("Name", stringResultInfo none), ("Good", stringResultInfo none)]
    [("Good", stringResultInfo none), ("Name", stringResultInfo none)]
    (by decide)
    (List.Perm.swap ("Good", stringResultInfo none)
      ("Name", stringResultInfo none) [])

/-- C8: every extracted method's entry appears in the emitted body as its
doc-comment lines, verbatim and immediately preceding its rendered method
line; a method without a doc comment contributes exactly its method line
and no comment lines. -/
theorem C8_theorem {destPkgPath : String} {ms : List (String × MethodInfo)}
    (hnd : (ms.map Prod.fst).Nodup) {k : String} {v : MethodInfo}
    (hmem : (k, v) ∈ ms) :
    (∃ pre post, interfaceBodyLines destPkgPath ms =
      pre ++ ((docLines v.doc ++ [methodLine destPkgPath k v]) ++ post)) ∧
    (v.doc = none →
      entryLines destPkgPath (k, v) = [methodLine destPkgPath k v]) := by
  constructor
  · obtain ⟨pre, post, heq⟩ :=
      flatMap_adjacent (entryLines destPkgPath) (mem_sortEntries_of_mem hnd hmem)
    exact ⟨pre, post, heq⟩
  · intro h
    simp [entryLines, docLines, h]

/-- C8 witness: in a two-method map the documented method's comment line
sits immediately above its signature line, and the undocumented method
contributes a bare signature line. -/
theorem C8_witness :
    (∃ pre post, interfaceBodyLines "example.com/d" docMs =
      pre ++ ((docLines (some nameComment) ++
        [methodLine "example.com/d" "Name"
          (stringResultInfo (some nameComment))]) ++ post)) ∧
    ((stringResultInfo none).doc = none →
      entryLines "example.com/d" ("Good", stringResultInfo none) =
        [methodLine "example.com/d" "Good" (stringResultInfo none)]) :=
  ⟨(C8_theorem (by decide)
      (show ("Name", stringResultInfo (some nameComment)) ∈ docMs by decide)).1,
   (C8_theorem (by decide)
      (show ("Good", stringResultInfo none) ∈ docMs by decide)).2⟩

/-- C10: `Visit` dereferences `ts.Name.Name[0]`, `ts.Recv.List[0].Type`
and `ObjectOf(ts.Name).Type()` without guards; it completes without a
runtime panic whenever every function declaration with a receiver has a
non-empty name, a non-empty receiver field list, and a name resolving to
a non-nil object — and each of the three unguarded accesses does panic on
a concrete input violating its precondition. -/
theorem C10_theorem :
    (∀ (info : TypeInfo) (src : String) (ms : List (String × MethodInfo))
      (n : Node),
      (∀ d fs, n = .funcDecl d → d.recv = some fs →
        d.name.data ≠ [] ∧ fs ≠ [] ∧ info.objectOf d ≠ none) →
      visit info src ms n ≠ .panicked) ∧
    visit widgetInfo "Widget" []
      (.funcDecl ⟨"", some [.ident "Widget"], none⟩) = .panicked ∧
    visit widgetInfo "Widget" []
      (.funcDecl ⟨"Foo", some [], none⟩) = .panicked ∧
    visit nilObjInfo "Widget" []
      (.funcDecl ⟨"Foo", some [.ident "Widget"], none⟩) = .panicked := by
  refine ⟨?_, by decide, by decide, by decide⟩
  intro info src ms n h
  cases n with
  | other => simp [visit]
  | funcDecl d =>
    cases hrecv : d.recv with
    | none => simp [visit, hrecv]
    | some fs =>
      obtain ⟨hn, hfs, hobj⟩ := h d fs rfl hrecv
      cases hname : d.name.data with
      | nil => exact absurd hname hn
      | cons c cr =>
        by_cases hc : c.toUpper = c
        · cases fs with
          | nil => exact absurd rfl hfs
          | cons f fs2 =>
            cases hexpr : info.exprType f with
            | error e =>
              rw [visit_fatal ms hrecv hname hc hexpr]
              exact VisitOutcome.noConfusion
            | ok t =>
              by_cases hlast : lastChunk t.string = src.data
              · cases hobj2 : info.objectOf d with
                | none => exact absurd hobj2 hobj
                | some o =>
                  cases o with
                  | sig s =>
                    rw [visit_insert ms hrecv hname hc hexpr hlast hobj2]
                    exact VisitOutcome.noConfusion
                  | nonsig =>
                    rw [visit_nonsig ms hrecv hname hc hexpr hlast hobj2]
                    exact VisitOutcome.noConfusion
              · rw [visit_skip_mismatch ms hrecv hname hc hexpr hlast]
                exact VisitOutcome.noConfusion
        · rw [visit_skip_unexported ms hrecv hname hc]
          exact VisitOutcome.noConfusion

/-- C10 witness: a well-formed method declaration satisfies the
precondition and `Visit` does not panic on it. -/
theorem C10_witness :
    visit widgetInfo "Widget" [] (.funcDecl goodDecl) ≠ .panicked :=
  C10_theorem.1 widgetInfo "Widget" [] (.funcDecl goodDecl)
    (fun d fs hd hr => by
      injection hd with h1
      subst h1
      injection hr with h2
      subst h2
      exact ⟨by decide, by decide, by decide⟩)

/-- C1 counterexample: the method `_Foo` on `Widget` is not exported by
Go's convention (`'_'` is not an upper-case letter), yet the code's
first-character comparison against the upper-cased name passes it: it
appears in the extracted mapping and its line appears in the emitted
interface body, contradicting the claim that non-exported methods are
absent from the output. -/
theorem C1_counterexample :
    goExported "_Foo" = false ∧
    extract widgetInfo "Widget" [.funcDecl underscoreDecl] =
      .ok [("_Foo", stringResultInfo none)] ∧
    "_Foo() string" ∈ interfaceBodyLines "example.com/d"
      [("_Foo", stringResultInfo none)] := by
  refine ⟨by decide, by decide, by decide⟩

/-- C1 (amended): every entry of the extracted mapping comes from a
declaration that passed the code's first-character check — the first
character of the name is unchanged by upper-casing, which skips names
beginning with a lower-case letter but, unlike Go's exported convention,
admits names beginning with an underscore — and whose receiver resolved
to a type whose final dot-chunk equals the target type name; methods
failing either test contribute nothing to the mapping. -/
theorem C1_theorem {info : TypeInfo} {src : String} {nodes : List Node}
    {ms : List (String × MethodInfo)} (h : extract info src nodes = .ok ms)
    {k : String} {v : MethodInfo} (hmem : (k, v) ∈ ms) :
    ∃ d, Node.funcDecl d ∈ nodes ∧ d.name = k ∧
      codeExportCheck k = true ∧
      (∃ f fs t, d.recv = some (f :: fs) ∧ info.exprType f = .ok t ∧
        lastChunk t.string = src.data) ∧
      info.objectOf d = some (.sig v.method) ∧ v.doc = d.doc := by
  rcases extractFrom_mem h hmem with h1 | h1
  · cases h1
  · exact h1

/-- C1 witness: the single entry extracted from `nameDecl` traces back to
a declaration passing both checks. -/
theorem C1_witness :
    ∃ d, Node.funcDecl d ∈ [Node.funcDecl nameDecl, Node.funcDecl idDecl] ∧
      d.name = "Name" ∧ codeExportCheck "Name" = true ∧
      (∃ f fs t, d.recv = some (f :: fs) ∧ widgetInfo.exprType f = .ok t ∧
        lastChunk t.string = "Widget".data) ∧
      widgetInfo.objectOf d =
        some (.sig (stringResultInfo (some nameComment)).method) ∧
      (stringResultInfo (some nameComment)).doc = d.doc :=
  C1_theorem (by decide)
    (show ("Name", stringResultInfo (some nameComment)) ∈
      [("Name", stringResultInfo (some nameComment))] by decide)

/-- C3 counterexample: `Bad` is an exported method on the target type
whose name resolves to a non-signature object — a method-name
type-resolution failure — yet the run does not terminate fatally: `Visit`
silently skips it and extraction completes with a partial mapping holding
only `Good`. -/
theorem C3_counterexample :
    codeExportCheck "Bad" = true ∧
    widgetInfo.exprType (.ident "Widget") =
      .ok (.named "example.com/w" "w" "Widget") ∧
    lastChunk (GoType.named "example.com/w" "w" "Widget").string =
      "Widget".data ∧
    widgetInfo.objectOf badDecl = some .nonsig ∧
    visit widgetInfo "Widget" [] (.funcDecl badDecl) = .ok [] false ∧
    extract widgetInfo "Widget" [.funcDecl badDecl, .funcDecl goodDecl] =
      .ok [("Good", stringResultInfo none)] := by
  refine ⟨by decide, rfl, by decide, by decide, by decide, by decide⟩

/-- C3 (amended): a failure to resolve a receiver's type is fatal for the
whole run — `Visit` dies, and the run terminates with
`typeResolutionFailure` and exits non-zero — but a matched method whose
name resolves to a non-signature object type is silently skipped rather
than fatal, so a partial interface can be emitted. -/
theorem C3_theorem {info : TypeInfo} {src : String} {d : FuncDecl}
    {f : Expr} {fs : List Expr} {c : Char} {cr : List Char}
    (ms : List (String × MethodInfo))
    (hrecv : d.recv = some (f :: fs)) (hname : d.name.data = c :: cr)
    (hc : c.toUpper = c) :
    (∀ e, info.exprType f = .error e →
      visit info src ms (.funcDecl d) =
        .fatal ("failed to get expression for *ast.FuncType " ++
          d.name ++ ": " ++ e)) ∧
    (∀ t, info.exprType f = .ok t → lastChunk t.string = src.data →
      info.objectOf d = some .nonsig →
      visit info src ms (.funcDecl d) = .ok ms false) ∧
    (∀ (opts : Options) (packagePath destPackagePath : String) (w : World)
      (m : String),
      w.resolveErr = false → (w.outputFile.isSome && w.removeFails) = false →
      w.pkgWorld.locatable = true → w.pkgPresent = true →
      extract w.info opts.sourceTypeName w.pkgWorld.decls = .fatal m →
      runMain opts packagePath destPackagePath w =
        (.died (.typeResolutionFailure m), none)) := by
  refine ⟨fun e he => visit_fatal ms hrecv hname hc he,
    fun t ht hl ho => visit_nonsig ms hrecv hname hc ht hl ho, ?_⟩
  intro opts pp dp w m h1 h2 h3 h4 h5
  rw [runMain_reaches_extract opts pp dp w h1 h2 h3 h4, h5]

/-- C3 witness: `Odd`'s receiver fails to resolve; `Visit` dies with the
formatted message and the whole run terminates with
`typeResolutionFailure`. -/
theorem C3_witness :
    visit widgetInfo "Widget" [] (.funcDecl oddDecl) =
      .fatal ("failed to get expression for *ast.FuncType " ++ "Odd" ++
        ": " ++ "unresolved receiver type") ∧
    runMain defaultOpts "example.com/w" "example.com/d" fatalWorld =
      (.died (.typeResolutionFailure
        ("failed to get expression for *ast.FuncType " ++ "Odd" ++ ": " ++
          "unresolved receiver type")), none) :=
  ⟨(@C3_theorem widgetInfo "Widget" oddDecl (Expr.ident "Unknown") []
      'O' ['d', 'd'] [] rfl rfl (by decide)).1 "unresolved receiver type" rfl,
   (@C3_theorem widgetInfo "Widget" oddDecl (Expr.ident "Unknown") []
      'O' ['d', 'd'] [] rfl rfl (by decide)).2.2 defaultOpts
      "example.com/w" "example.com/d" fatalWorld _ rfl rfl rfl rfl (by decide)⟩

/-- C4: an exported method whose receiver is a value or a pointer form of
the target type is collected exactly once — the final dot-chunk of the
receiver type's string strips pointer indirection before the simple-name
comparison, and the extracted mapping holds exactly one entry under the
method's name, carrying its signature and doc.  Only declarations whose
receiver also resolves to the target need be unique in name (Go forbids
two same-named methods on one type); same-named exported methods on other
types, or free functions, are skipped without touching the entry. -/
theorem C4_theorem {info : TypeInfo} {src : String} {d : FuncDecl}
    {f : Expr} {fs : List Expr} {c : Char} {cr : List Char} {t : GoType}
    {p i : String} {s : Signature} {nodes : List Node}
    {ms : List (String × MethodInfo)}
    (hrecv : d.recv = some (f :: fs)) (hname : d.name.data = c :: cr)
    (hc : c.toUpper = c) (hexpr : info.exprType f = .ok t)
    (hshape : t = .named p i src ∨ t = .ptr (.named p i src))
    (hdot : '.' ∉ src.data)
    (hobj : info.objectOf d = some (.sig s))
    (hmem : Node.funcDecl d ∈ nodes)
    (huniq : ∀ d', Node.funcDecl d' ∈ nodes → d'.name = d.name →
      (∃ f' fs' t', d'.recv = some (f' :: fs') ∧ info.exprType f' = .ok t' ∧
        lastChunk t'.string = src.data) → d' = d)
    (h : extract info src nodes = .ok ms) :
    lookupName d.name ms = some ⟨s, d.doc⟩ ∧ (ms.map Prod.fst).Nodup := by
  have hlast : lastChunk t.string = src.data := by
    rcases hshape with h1 | h1
    · rw [h1]
      exact lastChunk_named hdot
    · rw [h1]
      exact lastChunk_ptr_named hdot
  exact ⟨extractFrom_collects hrecv hname hc hexpr hlast hobj hmem huniq h,
    extract_keys_nodup h⟩

/-- C4 witness: the pointer-receiver method `Name` on `Widget` is
collected exactly once from a package that also declares the same-named
exported method `Other.Name` — carrying its own, different object —
and the unexported `id`; `Other.Name`'s receiver resolves to `Other`,
not `Widget`, so it is skipped without touching the map. -/
theorem C4_witness :
    lookupName "Name"
        [("Name", stringResultInfo (some nameComment))] =
      some ⟨⟨[], [.basic "string"]⟩, nameDecl.doc⟩ ∧
    (([("Name", stringResultInfo (some nameComment))].map
      Prod.fst)).Nodup :=
  @C4_theorem widgetInfo "Widget" nameDecl (Expr.star (Expr.ident "Widget")) []
    'N' ['a', 'm', 'e'] (GoType.ptr (GoType.named "example.com/w" "w" "Widget"))
    "example.com/w" "w" ⟨[], [GoType.basic "string"]⟩
    [Node.funcDecl nameDecl, Node.funcDecl otherNameDecl, Node.funcDecl idDecl]
    [("Name", stringResultInfo (some nameComment))]
    rfl rfl (by decide) rfl (Or.inr rfl) (by decide) rfl (by decide)
    (fun d' hd' hnm hmatch => by
      rcases List.mem_cons.mp hd' with h1 | h1
      · exact Node.funcDecl.inj h1
      · rcases List.mem_cons.mp h1 with h2 | h2
        · have hd : d' = otherNameDecl := Node.funcDecl.inj h2
          subst hd
          obtain ⟨f', fs', t', hr, he, hl⟩ := hmatch
          have hr2 : some [Expr.ident "Other"] = some (f' :: fs') := hr
          have hf : Expr.ident "Other" = f' :=
            (List.cons.inj (Option.some.inj hr2)).1
          subst hf
          have he2 : (Except.ok (GoType.named "example.com/w" "w" "Other") :
              Except String GoType) = Except.ok t' := he
          have ht : GoType.named "example.com/w" "w" "Other" = t' :=
            Except.ok.inj he2
          subst ht
          exact absurd hl (by decide)
        · rcases List.mem_cons.mp h2 with h3 | h3
          · have hd : d' = idDecl := Node.funcDecl.inj h3
            subst hd
            exact absurd hnm (by decide)
          · cases h3)
    (by decide)

/-- C5: a run whose traversal yields an empty method mapping dies with an
error naming the type and its package, the process exits with code 1,
and no output file exists at the output path. -/
theorem C5_theorem (opts : Options) (packagePath destPackagePath : String)
    (w : World) (h1 : w.resolveErr = false)
    (h2 : (w.outputFile.isSome && w.removeFails) = false)
    (h3 : w.pkgWorld.locatable = true) (h4 : w.pkgPresent = true)
    (h5 : extract w.info opts.sourceTypeName w.pkgWorld.decls = .ok []) :
    runMain opts packagePath destPackagePath w =
      (.died (.noMethodsFound opts.sourceTypeName packagePath), none) ∧
    errMessage (.noMethodsFound opts.sourceTypeName packagePath) =
      "type " ++ opts.sourceTypeName ++ " was not found in " ++ packagePath ++
        " or doesn't have any exported methods" ∧
    exitCode (runMain opts packagePath destPackagePath w).1 = 1 := by
  have hr := runMain_reaches_extract opts packagePath destPackagePath w h1 h2 h3 h4
  rw [h5] at hr
  simp only [List.isEmpty_nil, if_true] at hr
  refine ⟨hr, rfl, ?_⟩
  rw [hr]
  rfl

/-- C5 witness: a package declaring only the unexported `id` dies with
`noMethodsFound` naming `Widget` and `example.com/w`, exits 1, and leaves
no file at the output path. -/
theorem C5_witness :
    runMain defaultOpts "example.com/w" "example.com/d" emptyWorld =
      (.died (.noMethodsFound "Widget" "example.com/w"), none) ∧
    errMessage (.noMethodsFound "Widget" "example.com/w") =
      "type " ++ "Widget" ++ " was not found in " ++ "example.com/w" ++
        " or doesn't have any exported methods" ∧
    exitCode (runMain defaultOpts "example.com/w" "example.com/d" emptyWorld).1 = 1 :=
  C5_theorem defaultOpts "example.com/w" "example.com/d" emptyWorld
    rfl rfl rfl rfl (by decide)

theorem runMain_shape (opts : Options) (packagePath destPackagePath : String)
    (w : World) :
    ((runMain opts packagePath destPackagePath w).1 = .died .resolveFailure ∧
      (runMain opts packagePath destPackagePath w).2 = w.outputFile) ∨
    ((runMain opts packagePath destPackagePath w).1 = .died .removeFailure ∧
      (runMain opts packagePath destPackagePath w).2 = w.outputFile ∧
      w.outputFile.isSome = true) ∨
    ((runMain opts packagePath destPackagePath w).2 = none ∧
      (runMain opts packagePath destPackagePath w).1 ≠ .died .removeFailure ∧
      (runMain opts packagePath destPackagePath w).1 ≠ .died .resolveFailure) ∨
    ∃ out, (runMain opts packagePath destPackagePath w).1 = .finished ∧
      (runMain opts packagePath destPackagePath w).2 = some out := by
  unfold runMain
  by_cases hre : w.resolveErr = true
  · left
    simp [hre]
  · rw [if_neg (by simpa using hre)]
    by_cases hrm : (w.outputFile.isSome && w.removeFails) = true
    · right; left
      rw [if_pos hrm]
      exact ⟨rfl, rfl, (Bool.and_eq_true _ _ |>.mp hrm).1⟩
    · rw [if_neg (by simpa using hrm)]
      cases hl : loadPackage typefaceConfig w.pkgWorld with
      | error m =>
        right; right; left
        simp
      | ok pkg =>
        by_cases hp : w.pkgPresent = true
        · simp only [hp, Bool.not_true, Bool.false_eq_true, if_false]
          cases hx : extract w.info opts.sourceTypeName pkg.decls with
          | fatal m =>
            right; right; left
            simp
          | panicked =>
            right; right; left
            simp
          | ok ms =>
            by_cases he : ms.isEmpty = true
            · right; right; left
              simp [he]
            · by_cases hw : w.writeErr = true
              · right; right; left
                simp [he, hw]
              · right; right; right
                refine ⟨renderOutput opts.sourceTypeName packagePath
                  destPackagePath opts.interfaceName ms, ?_, ?_⟩
                · simp [he, hw]
                · simp [he, hw]
        · right; right; left
          have hp2 : w.pkgPresent = false := by
            cases h : w.pkgPresent
            · rfl
            · exact absurd h hp
          simp [hp2]

/-- C9: a pre-existing file at the output path is deleted before the
package is loaded, and a missing file there is not an error — a run
against a world with no pre-existing output file never dies with
`removeFailure` — while every failure raised after the removal (load
failure, missing package handle, type-resolution failure, no methods
found) leaves no file at the output path: the previous file is gone and
no new one was written. -/
theorem C9_theorem (opts : Options) (packagePath destPackagePath : String)
    (w : World) :
    (w.outputFile = none →
      (runMain opts packagePath destPackagePath w).1 ≠ .died .removeFailure) ∧
    (∀ e, (runMain opts packagePath destPackagePath w).1 = .died e →
      e.afterRemoval = true →
      (runMain opts packagePath destPackagePath w).2 = none) := by
  rcases runMain_shape opts packagePath destPackagePath w with
    ⟨ha1, ha2⟩ | ⟨hb1, hb2, hb3⟩ | ⟨hc1, hc2, hc3⟩ | ⟨out, hd1, hd2⟩
  · constructor
    · intro hout heq
      rw [ha1] at heq
      exact absurd (RunOutcome.died.inj heq) (by decide)
    · intro e he hafter
      rw [ha1] at he
      have : RunError.resolveFailure = e := RunOutcome.died.inj he
      rw [← this] at hafter
      cases hafter
  · constructor
    · intro hout
      rw [hout] at hb3
      cases hb3
    · intro e he hafter
      rw [hb1] at he
      have : RunError.removeFailure = e := RunOutcome.died.inj he
      rw [← this] at hafter
      cases hafter
  · exact ⟨fun _ => hc2, fun e _ _ => hc1⟩
  · constructor
    · intro hout heq
      rw [hd1] at heq
      cases heq
    · intro e he hafter
      rw [hd1] at he
      cases he

/-- C9 witness: with no pre-existing output file the run does not die
removing it, and a run that fails at load time ends with nothing at the
output path. -/
theorem C9_witness :
    (runMain defaultOpts "example.com/w" "example.com/d" noFileWorld).1 ≠
      .died .removeFailure ∧
    (runMain defaultOpts "example.com/w" "example.com/d" badLoadWorld).2 = none :=
  ⟨(C9_theorem defaultOpts "example.com/w" "example.com/d" noFileWorld).1 rfl,
   (C9_theorem defaultOpts "example.com/w" "example.com/d" badLoadWorld).2
     (.loadFailure "could not locate or parse package") (by decide) rfl⟩
